import Mathlib

/-!
Verification of the offline-first generation store with background
synchronization of the NexusAI repository.

The development shallowly embeds the client-side storage layer
(`lib/storage/indexdb.ts`, class `IndexedDBManager`), the sync coordinator
(`hooks/use-indexdb.ts`, `syncToServer` / `useAutoSync`), and the usage/quota
facade (`hooks/use-subscription.ts`).  The IndexedDB object store keyed by
record `id` is modelled as a list of records, `put` as replace-or-append by
id.  `Date` values are modelled as natural-number timestamps; each source
call to `new Date()` / `Date.now()` becomes an explicit parameter of the
embedded operation.  Fallible operations return `Except String`.
-/

/-- The closed tag set of generation types
(`'image' | 'video' | 'audio' | 'code' | 'conversation'`). -/
inductive GenType where
  | image | video | audio | code | conversation
deriving DecidableEq, Repr

/-- `result: string | Blob`.  A blob is kept as raw byte data. -/
inductive GenResult where
  | text (s : String)
  | blob (bytes : List Nat)
deriving DecidableEq, Repr

/-- The `IndexedDBGeneration` record of `lib/storage/indexdb.ts`.
Optional (`?`) TypeScript fields become `Option`; `metadata` is kept as an
opaque association list. -/
structure Generation where
  id : String
  userId : String
  gtype : GenType
  prompt : String
  result : GenResult
  model : Option String
  metadata : Option (List (String × String))
  createdAt : Nat
  updatedAt : Option Nat
  synced : Bool
  syncAttempts : Option Nat
  lastSyncAttempt : Option Nat
  tags : Option (List String)
  favorite : Option Bool
deriving DecidableEq, Repr

/-- The `generations` object store: the list of stored records.  IndexedDB
keys the store by `id` (`keyPath: 'id'`). -/
abbrev Store := List Generation

/-- Well-formedness of a store: record ids are pairwise distinct, which the
engine guarantees since `id` is the primary key. -/
def Wellformed (s : Store) : Prop :=
  List.Pairwise (fun a b : Generation => a.id ≠ b.id) s

instance (s : Store) : Decidable (Wellformed s) :=
  inferInstanceAs (Decidable (List.Pairwise _ s))

/-- `getGenerationById`: `this.db.get(STORE_NAME, id) || null` — lookup of
the record stored under key `id`. -/
def getGenerationById (s : Store) (id : String) : Option Generation :=
  s.find? (fun g => decide (g.id = id))

/-- IndexedDB `put`: stores the record under its `id` key, replacing any
record already stored under that key. -/
def putRecord (s : Store) (r : Generation) : Store :=
  if s.any (fun g => decide (g.id = r.id)) then
    s.map (fun g => if g.id = r.id then r else g)
  else s ++ [r]

/-- Input of `saveGeneration`: `Omit<IndexedDBGeneration, 'id' | 'createdAt'
| 'synced'>`.  The fields `updatedAt`, `syncAttempts` and `favorite` may be
supplied but are unconditionally overwritten by `saveGeneration` (the object
literal spreads `...data` first and then sets them). -/
structure SaveInput where
  userId : String
  gtype : GenType
  prompt : String
  result : GenResult
  model : Option String := none
  metadata : Option (List (String × String)) := none
  updatedAt : Option Nat := none
  syncAttempts : Option Nat := none
  lastSyncAttempt : Option Nat := none
  tags : Option (List String) := none
  favorite : Option Bool := none
deriving DecidableEq, Repr

/-- `saveGeneration(data)`: builds the full record with the freshly generated
`id` and the current time `now` (both explicit parameters here, standing for
`gen_${Date.now()}_${random}` and `new Date()`), sets `synced: false`,
`syncAttempts: 0`, `favorite: false`, `tags: data.tags || []`, puts it, and
returns the id. -/
def saveGeneration (s : Store) (d : SaveInput) (id : String) (now : Nat) :
    String × Store :=
  let g : Generation :=
    { id := id
      userId := d.userId
      gtype := d.gtype
      prompt := d.prompt
      result := d.result
      model := d.model
      metadata := d.metadata
      createdAt := now
      updatedAt := some now
      synced := false
      syncAttempts := some 0
      lastSyncAttempt := d.lastSyncAttempt
      tags := some (d.tags.getD [])
      favorite := some false }
  (id, putRecord s g)

/-- The `saveGeneration` mutation of `hooks/use-indexdb.ts`: throws
`'User not authenticated'` when no user context is bound, otherwise saves
with `userId` taken from the bound user. -/
def hookSaveGeneration (user : Option String) (d : SaveInput) (s : Store)
    (id : String) (now : Nat) : Except String (String × Store) :=
  match user with
  | none => .error "User not authenticated"
  | some uid => .ok (saveGeneration s { d with userId := uid } id now)

/-- A `Partial<IndexedDBGeneration>` update object: `none` means the key is
absent from the partial object.  `updatedAt` may be supplied but the merge in
`updateGeneration` always overwrites it with the current time. -/
structure GenUpdate where
  id : Option String := none
  userId : Option String := none
  gtype : Option GenType := none
  prompt : Option String := none
  result : Option GenResult := none
  model : Option String := none
  metadata : Option (List (String × String)) := none
  createdAt : Option Nat := none
  updatedAt : Option Nat := none
  synced : Option Bool := none
  syncAttempts : Option Nat := none
  lastSyncAttempt : Option Nat := none
  tags : Option (List String) := none
  favorite : Option Bool := none
deriving DecidableEq, Repr

/-- Overwrite-if-present for a field that is itself optional on the record. -/
def optUpd {α : Type} (u : Option α) (e : Option α) : Option α :=
  match u with
  | some v => some v
  | none => e

/-- The merge `{ ...existing, ...updates, updatedAt: new Date() }`. -/
def applyUpdates (e : Generation) (u : GenUpdate) (now : Nat) : Generation :=
  { id := u.id.getD e.id
    userId := u.userId.getD e.userId
    gtype := u.gtype.getD e.gtype
    prompt := u.prompt.getD e.prompt
    result := u.result.getD e.result
    model := optUpd u.model e.model
    metadata := optUpd u.metadata e.metadata
    createdAt := u.createdAt.getD e.createdAt
    updatedAt := some now
    synced := u.synced.getD e.synced
    syncAttempts := optUpd u.syncAttempts e.syncAttempts
    lastSyncAttempt := optUpd u.lastSyncAttempt e.lastSyncAttempt
    tags := optUpd u.tags e.tags
    favorite := optUpd u.favorite e.favorite }

/-- `updateGeneration(id, updates)`: throws when `id` is absent, otherwise
merges the partial fields, bumps `updatedAt`, and puts the merged record. -/
def updateGeneration (s : Store) (id : String) (u : GenUpdate) (now : Nat) :
    Except String Store :=
  match getGenerationById s id with
  | none => .error "Generation not found"
  | some existing => .ok (putRecord s (applyUpdates existing u now))

/-- `getUnsyncedGenerations()`: all records whose `synced` flag is false. -/
def getUnsyncedGenerations (s : Store) : List Generation :=
  s.filter (fun g => !g.synced)

/-- `markAsSynced(id)`: `updateGeneration(id, { synced: true, lastSyncAttempt:
new Date() })`.  `tl` is the `new Date()` of the update object, `tu` the one
taken inside `updateGeneration` for `updatedAt`. -/
def markAsSynced (s : Store) (id : String) (tl tu : Nat) : Except String Store :=
  updateGeneration s id { synced := some true, lastSyncAttempt := some tl } tu

/-- `markSyncFailed(id)`: reads the record; when present, increments
`syncAttempts` (absent counter counts as 0) and stamps `lastSyncAttempt`;
when the record is gone it is a silent no-op. -/
def markSyncFailed (s : Store) (id : String) (tl tu : Nat) : Except String Store :=
  match getGenerationById s id with
  | some g =>
      updateGeneration s id
        { syncAttempts := some (g.syncAttempts.getD 0 + 1),
          lastSyncAttempt := some tl } tu
  | none => .ok s

/-- `toggleFavorite(id)`: read-modify-write flip of the `favorite` flag
(`!generation.favorite`, with an absent flag reading as false); returns the
new value. -/
def toggleFavorite (s : Store) (id : String) (tu : Nat) :
    Except String (Bool × Store) :=
  match getGenerationById s id with
  | none => .error "Generation not found"
  | some g =>
      let newStatus := !(g.favorite.getD false)
      match updateGeneration s id { favorite := some newStatus } tu with
      | .ok s2 => .ok (newStatus, s2)
      | .error e => .error e

/-- `[...new Set(xs)]`: insertion-ordered deduplication, keeping the first
occurrence of each element. -/
def dedupKeepFirst : List String → List String
  | [] => []
  | x :: xs => x :: dedupKeepFirst (xs.filter (fun y => decide (y ≠ x)))
termination_by l => l.length
decreasing_by
  simp only [List.length_cons]
  exact Nat.lt_succ_of_le (List.length_filter_le _ _)

/-- `addTags(id, tags)`: union of the existing tags with the new ones via
`[...new Set([...existingTags, ...tags])]`. -/
def addTags (s : Store) (id : String) (tags : List String) (tu : Nat) :
    Except String Store :=
  match getGenerationById s id with
  | none => .error "Generation not found"
  | some g =>
      updateGeneration s id
        { tags := some (dedupKeepFirst (g.tags.getD [] ++ tags)) } tu

/-- `sortBy ∈ {'createdAt', 'updatedAt'}`. -/
inductive SortBy where
  | createdAt | updatedAt
deriving DecidableEq, Repr

/-- `sortOrder ∈ {'asc', 'desc'}`. -/
inductive SortOrder where
  | asc | desc
deriving DecidableEq, Repr

/-- The optional `options` object of `getGenerations`. -/
structure QueryOptions where
  qtype : Option GenType := none
  limit : Option Nat := none
  offset : Option Nat := none
  sortBy : Option SortBy := none
  sortOrder : Option SortOrder := none
  syncedOnly : Option Bool := none
  favoritesOnly : Option Bool := none
deriving DecidableEq, Repr

/-- The numeric sort key `a[sortBy]` (`.getTime()` on a `Date`): absent
`updatedAt` is JavaScript `undefined`. -/
def sortKey (sb : SortBy) (g : Generation) : Option Int :=
  match sb with
  | .createdAt => some (g.createdAt : Int)
  | .updatedAt => g.updatedAt.map (fun n => (n : Int))

/-- The comparator value `bValue - aValue` (desc) / `aValue - bValue` (asc).
When a key is `undefined` the subtraction is `NaN`, which the ECMAScript
`SortCompare` treats as `+0`, i.e. the two elements compare equal. -/
def cmpVal (so : SortOrder) (sb : SortBy) (a b : Generation) : Int :=
  match sortKey sb a, sortKey sb b with
  | some x, some y => match so with | .desc => y - x | .asc => x - y
  | _, _ => 0

/-- The filter phase of `getGenerations`: records are read through the
`userId-type` composite index (when a type filter is given) or the `userId`
index, then the `syncedOnly` and `favoritesOnly` post-filters run. -/
def applyFilters (s : Store) (userId : String) (opts : QueryOptions) :
    List Generation :=
  let base :=
    match opts.qtype with
    | some t => s.filter (fun g => decide (g.userId = userId) && decide (g.gtype = t))
    | none => s.filter (fun g => decide (g.userId = userId))
  let r1 :=
    match opts.syncedOnly with
    | some b => base.filter (fun g => decide (g.synced = b))
    | none => base
  if opts.favoritesOnly = some true then
    r1.filter (fun g => decide (g.favorite = some true))
  else r1

/-- `getGenerations(userId, options)`: the filter phase, then the stable
array sort under the comparator, then `slice(offset, offset + limit)`.
Defaults: `limit = 100`, `offset = 0`, `sortBy = 'createdAt'`,
`sortOrder = 'desc'`. -/
def getGenerations (s : Store) (userId : String) (opts : QueryOptions) :
    List Generation :=
  let lim := opts.limit.getD 100
  let off := opts.offset.getD 0
  let sb := opts.sortBy.getD .createdAt
  let so := opts.sortOrder.getD .desc
  let sorted := List.insertionSort (fun a b => cmpVal so sb a b ≤ 0)
    (applyFilters s userId opts)
  (sorted.drop off).take lim

/-- Modelled from the spec: the combined filter predicate — the record
belongs to the user and passes the optional type, synced and favorite
filters.  Specification side of the refinement proof for `getGenerations`. -/
def specKeep (userId : String) (opts : QueryOptions) (g : Generation) : Bool :=
  decide (g.userId = userId) &&
  (match opts.qtype with | some t => decide (g.gtype = t) | none => true) &&
  (match opts.syncedOnly with | some b => decide (g.synced = b) | none => true) &&
  (if opts.favoritesOnly = some true then decide (g.favorite = some true) else true)

/-- Modelled from the spec (§4.1 `query`): "Returns at most `limit` (default
100) records after applying all filters then sorting then paging" — a single
combined filter pass, then the stable sort, then offset/limit paging.  Used
only as the specification side of the refinement proof for `getGenerations`. -/
def querySpec (s : Store) (userId : String) (opts : QueryOptions) :
    List Generation :=
  let lim := opts.limit.getD 100
  let off := opts.offset.getD 0
  let sb := opts.sortBy.getD .createdAt
  let so := opts.sortOrder.getD .desc
  let sorted := List.insertionSort (fun a b => cmpVal so sb a b ≤ 0)
    (s.filter (specKeep userId opts))
  (sorted.drop off).take lim

/-- `exportData(userId)`: `JSON.stringify(await this.getGenerations(userId,
{ limit: 10000 }))`.  Serialization is modelled as the identity on the record
list. -/
def exportData (s : Store) (userId : String) : List Generation :=
  getGenerations s userId { limit := some 10000 }

/-- `importData(data)`: puts every record of the dump in order (upsert by
id) and returns the store together with the imported count. -/
def importData (s : Store) (data : List Generation) : Store × Nat :=
  (data.foldl putRecord s, data.length)

/-!
Sync coordinator (`hooks/use-indexdb.ts`).  The `syncToServer` mutation
fetches all unsynced records once, then pushes them sequentially with
`await` inside a `for` loop; the remote outcome of a push is abstracted as a
boolean-valued function `push` of the record.  A successful push is followed
by `markAsSynced`; any failure (of the push or of the marking) is rethrown by
the inner `catch`, which aborts the remainder of the loop.  The result
carries the final store, the ids pushed in order (including the failing
one), and whether the pass completed.
-/

/-- The sequential push loop of `syncToServer` over the list of records
captured by `getUnsyncedGenerations` at the start of the pass. -/
def syncLoop (push : Generation → Bool) (tl tu : Nat) :
    List Generation → Store → Store × List String × Bool
  | [], s => (s, [], true)
  | r :: rs, s =>
    match push r with
    | true =>
      match markAsSynced s r.id tl tu with
      | .ok s2 =>
          let rest := syncLoop push tl tu rs s2
          (rest.1, r.id :: rest.2.1, rest.2.2)
      | .error _ => (s, [r.id], false)
    | false => (s, [r.id], false)

/-- One `syncToServer` pass: fetch the unsynced records, then run the
sequential push loop on them. -/
def syncToServer (push : Generation → Bool) (tl tu : Nat) (s : Store) :
    Store × List String × Bool :=
  syncLoop push tl tu (getUnsyncedGenerations s) s

/-- The record as rewritten by a successful `markAsSynced`. -/
def markedRec (r : Generation) (tl tu : Nat) : Generation :=
  { r with synced := true, lastSyncAttempt := some tl, updatedAt := some tu }

/-- The store after marking a prefix of records as synced, in order: the
store a sync pass leaves behind after its successful pushes. -/
def markAll (pre : List Generation) (tl tu : Nat) (s : Store) : Store :=
  pre.foldl (fun acc r => putRecord acc (markedRec r tl tu)) s

/-- Observation: the `synced` flag of the record stored under `id2`. -/
def syncedAt (s : Store) (id2 : String) : Option Bool :=
  (getGenerationById s id2).map (fun g => g.synced)

/-- Observation: the `syncAttempts` counter of the record stored under `id2`. -/
def syncAttemptsAt (s : Store) (id2 : String) : Option (Option Nat) :=
  (getGenerationById s id2).map (fun g => g.syncAttempts)

/-- Events observable by the `useAutoSync` scheduler: a timer callback
firing (the 2-second initial timeout or the periodic interval), a running
pass finishing, and the effect cleanup (`isActive = false`, timers cleared). -/
inductive SyncEvent where
  | tick | complete | deactivate
deriving DecidableEq, Repr

/-- Scheduler state of `useAutoSync`: the `isActive` flag of the effect and
the number of `syncToServer` mutations currently running. -/
structure SyncSchedState where
  isActive : Bool
  inFlight : Nat
deriving DecidableEq, Repr

/-- One scheduler step.  A timer callback runs `if (isActive)
syncToServer();` — `mutate` of a react-query mutation always starts a new
run of the mutation function, with no deduplication against runs already in
flight.  Cleanup clears the timers and resets `isActive`; a pass in flight
is not cancelled and completes on its own. -/
def autoSyncStep (st : SyncSchedState) : SyncEvent → SyncSchedState
  | .tick => if st.isActive then { st with inFlight := st.inFlight + 1 } else st
  | .complete => { st with inFlight := st.inFlight - 1 }
  | .deactivate => { st with isActive := false }

/-- Run the scheduler over a sequence of events. -/
def runAutoSync (st : SyncSchedState) (evs : List SyncEvent) : SyncSchedState :=
  evs.foldl autoSyncStep st

/-- Scheduler state right after the effect of `useAutoSync` is set up. -/
def autoSyncStart : SyncSchedState :=
  { isActive := true, inFlight := 0 }

/-!
Usage/quota facade (`hooks/use-subscription.ts`).
-/

/-- The subscription snapshot fields used by the facade. -/
structure Subscription where
  plan : String
  status : String
deriving DecidableEq, Repr

/-- `map[feature] || false` over a `Record<string, boolean>` literal: an
absent key reads as `undefined`, hence false. -/
def lookupBool : List (String × Bool) → String → Bool
  | [], _ => false
  | (k, b) :: rest, f => if f = k then b else lookupBool rest f

/-- The `freeLimits` allow-list literal of `hasFeatureAccess`. -/
def freeLimits : List (String × Bool) :=
  [("imageGeneration", true), ("videoGeneration", false),
   ("audioGeneration", false), ("codeGeneration", true),
   ("highResolution", false), ("apiAccess", false),
   ("prioritySupport", false), ("customModels", false),
   ("batchProcessing", false)]

/-- The `basicLimits` allow-list literal of `hasFeatureAccess`. -/
def basicLimits : List (String × Bool) :=
  [("imageGeneration", true), ("videoGeneration", true),
   ("audioGeneration", true), ("codeGeneration", true),
   ("highResolution", true), ("apiAccess", false),
   ("prioritySupport", false), ("customModels", false),
   ("batchProcessing", true)]

/-- `hasFeatureAccess(feature)`: no subscription ⇒ false; `'free'` and
`'basic'` consult their allow-list literals; `'pro'` returns true for every
feature; any other plan string falls through to false. -/
def hasFeatureAccess (subscription : Option Subscription) (feature : String) : Bool :=
  match subscription with
  | none => false
  | some sub =>
    if sub.plan = "free" then lookupBool freeLimits feature
    else if sub.plan = "basic" then lookupBool basicLimits feature
    else if sub.plan = "pro" then true
    else false

/-- A per-feature limit value: a number or the `'unlimited'` sentinel. -/
inductive LimitVal where
  | num (n : Nat)
  | unlimited
deriving DecidableEq, Repr

/-- `limits[feature]`: `none` models an absent key (`undefined`). -/
def lookupLimit : List (String × LimitVal) → String → Option LimitVal
  | [], _ => none
  | (k, v) :: rest, f => if f = k then some v else lookupLimit rest f

/-- `usage[feature]`: `none` models an absent key (`undefined`). -/
def lookupUsage : List (String × Nat) → String → Option Nat
  | [], _ => none
  | (k, v) :: rest, f => if f = k then some v else lookupUsage rest f

/-- Result type of `getRemainingQuota`: a number, the `'unlimited'`
sentinel, or `NaN` (which `Math.max(0, undefined - current)` produces when
the feature has no limit entry). -/
inductive Quota where
  | num (n : Nat)
  | unlimited
  | nan
deriving DecidableEq, Repr

/-- `hasReachedLimit(feature)`: missing usage or limits data ⇒ false;
`'unlimited'` limit ⇒ false; numeric limit ⇒ `current >= limit` with the
usage count defaulting to 0; absent limit (`typeof undefined !== 'number'`)
⇒ false. -/
def hasReachedLimit (usage : Option (List (String × Nat)))
    (limits : Option (List (String × LimitVal))) (feature : String) : Bool :=
  match usage, limits with
  | some us, some ls =>
      let current := (lookupUsage us feature).getD 0
      match lookupLimit ls feature with
      | some (.num n) => decide (current ≥ n)
      | some .unlimited => false
      | none => false
  | _, _ => false

/-- `getRemainingQuota(feature)`: missing usage or limits data ⇒ 0;
`'unlimited'` ⇒ the sentinel; numeric limit ⇒ `Math.max(0, limit - current)`
(truncated subtraction); absent limit ⇒ `NaN`. -/
def getRemainingQuota (usage : Option (List (String × Nat)))
    (limits : Option (List (String × LimitVal))) (feature : String) : Quota :=
  match usage, limits with
  | some us, some ls =>
      match lookupLimit ls feature with
      | some .unlimited => .unlimited
      | some (.num n) => .num (n - (lookupUsage us feature).getD 0)
      | none => .nan
  | _, _ => .num 0

/-!
Concrete fixtures used by witnesses and counterexamples.
-/

/-- A concrete record with the given id, timestamp and sync flag. -/
def mkRec (id : String) (t : Nat) (sy : Bool) : Generation :=
  { id := id
    userId := "u1"
    gtype := .image
    prompt := "a cat"
    result := .text "data"
    model := some "m"
    metadata := none
    createdAt := t
    updatedAt := some t
    synced := sy
    syncAttempts := some 0
    lastSyncAttempt := none
    tags := some []
    favorite := some false }

/-- Three unsynced records for the sync-pass witness. -/
def wStoreA : Generation := mkRec "ga" 1 false

def wStoreB : Generation := mkRec "gb" 2 false

def wStoreC : Generation := mkRec "gc" 3 false

/-- A store with three unsynced records. -/
def wStore : Store := [wStoreA, wStoreB, wStoreC]

/-- A push outcome that fails exactly on record `"gb"`. -/
def pushFailB (g : Generation) : Bool := !(g.id = "gb" : Bool)

/-- An already-synced record, for the `synced`-invariant counterexample. -/
def syncedRec : Generation := mkRec "g1" 1 true

/-- The `i`-th record of the oversized store: distinct ids (strings of `i`
repetitions of `'a'`) and distinct timestamps. -/
def bigRec (i : Nat) : Generation :=
  { id := String.mk (List.replicate i 'a')
    userId := "u"
    gtype := .image
    prompt := ""
    result := .text ""
    model := none
    metadata := none
    createdAt := i
    updatedAt := none
    synced := false
    syncAttempts := some 0
    lastSyncAttempt := none
    tags := none
    favorite := none }

/-- A store of one user holding 10001 pairwise distinct records — one more
than the `limit: 10000` used by `exportData`. -/
def bigStore : Store := (List.range 10001).map bigRec

/-- A concrete save input for the save/getById witness. -/
def c2input : SaveInput :=
  { userId := "ignored", gtype := .code, prompt := "write a loop",
    result := .text "for i in ..." , model := some "gpt", metadata := none,
    tags := some ["t1"] }

/-- An unsynced record for the failed-push counterexample. -/
def c4rec : Generation := mkRec "g4" 1 false

/-- An unsynced record, to be marked synced twice. -/
def c5r0 : Generation := mkRec "g5" 1 false

/-- `c5r0` after `markAsSynced` at time 1. -/
def c5r1 : Generation :=
  { c5r0 with synced := true, lastSyncAttempt := some 1, updatedAt := some 1 }

/-- `c5r1` after a second `markAsSynced` at time 2. -/
def c5r2 : Generation :=
  { c5r1 with lastSyncAttempt := some 2, updatedAt := some 2 }

/-- A limits table granting feature `"imageGeneration"` a quota of 0. -/
def limitsImg0 : List (String × LimitVal) := [("imageGeneration", .num 0)]

/-!
Helper lemmas about the store primitives.
-/

theorem getById_id_eq {s : Store} {id : String} {r : Generation}
    (h : getGenerationById s id = some r) : r.id = id ∧ r ∈ s := by
  unfold getGenerationById at h
  induction s with
  | nil => simp at h
  | cons a as ih =>
    by_cases hp : a.id = id
    · rw [List.find?_cons_of_pos _ (by simpa using hp)] at h
      cases h
      exact ⟨hp, List.mem_cons_self _ _⟩
    · rw [List.find?_cons_of_neg _ (by simpa using hp)] at h
      rcases ih h with ⟨h1, h2⟩
      exact ⟨h1, List.mem_cons_of_mem _ h2⟩

theorem put_val_id (r g : Generation) :
    (if g.id = r.id then r else g).id = g.id := by
  by_cases h : g.id = r.id
  · rw [if_pos h, h]
  · rw [if_neg h]

theorem find?_map_val (s : List Generation) (r : Generation) (id2 : String) :
    (s.map (fun g => if g.id = r.id then r else g)).find?
        (fun g => decide (g.id = id2)) =
      (s.find? (fun g => decide (g.id = id2))).map
        (fun g => if g.id = r.id then r else g) := by
  rw [List.find?_map]
  have hp : ((fun g : Generation => decide (g.id = id2)) ∘
      (fun g => if g.id = r.id then r else g)) =
      (fun g : Generation => decide (g.id = id2)) := by
    funext g
    simp only [Function.comp_apply, put_val_id]
  rw [hp]

theorem getById_put_same (s : Store) (r : Generation) :
    getGenerationById (putRecord s r) r.id = some r := by
  unfold putRecord getGenerationById
  split
  · rw [find?_map_val]
    rename_i hany
    obtain ⟨g, hg, hgid⟩ : ∃ g ∈ s, g.id = r.id := by simpa using hany
    rcases hfind : s.find? (fun g => decide (g.id = r.id)) with _ | g'
    · rw [List.find?_eq_none] at hfind
      exact absurd (by simpa using hgid) (hfind g hg)
    · have hg' : g'.id = r.id := by simpa using List.find?_some hfind
      simp [hfind, hg']
  · rename_i hany
    rw [List.find?_append]
    have hnone : s.find? (fun g => decide (g.id = r.id)) = none := by
      rw [List.find?_eq_none]
      intro g hg
      simp only [Bool.not_eq_true, decide_eq_false_iff_not]
      intro hc
      exact absurd (by simpa using (⟨g, hg, hc⟩ : ∃ g ∈ s, g.id = r.id))
        (by simpa using hany)
    simp [hnone]

theorem getById_put_other (s : Store) (r : Generation) (id2 : String)
    (h : id2 ≠ r.id) :
    getGenerationById (putRecord s r) id2 = getGenerationById s id2 := by
  unfold putRecord getGenerationById
  split
  · rw [find?_map_val]
    rcases hfind : s.find? (fun g => decide (g.id = id2)) with _ | g'
    · simp [hfind]
    · have hgid : g'.id = id2 := by simpa using List.find?_some hfind
      have hne : ¬ (g'.id = r.id) := fun hc => h (hgid ▸ hc)
      simp [hfind, hne]
  · rw [List.find?_append]
    rcases hfind : s.find? (fun g => decide (g.id = id2)) with _ | g'
    · have hpr : ¬ (r.id = id2) := fun hc => h hc.symm
      simp [hfind, List.find?_cons, hpr]
    · simp [hfind]

theorem mem_put_of_mem {s : Store} {g : Generation} (r : Generation)
    (hg : g ∈ s) (hne : g.id ≠ r.id) : g ∈ putRecord s r := by
  unfold putRecord
  split
  · exact List.mem_map.mpr ⟨g, hg, by simp [if_neg hne]⟩
  · exact List.mem_append_left _ hg

theorem wellformed_put {s : Store} (r : Generation) (hwf : Wellformed s) :
    Wellformed (putRecord s r) := by
  unfold Wellformed at *
  unfold putRecord
  split
  · rw [List.pairwise_map]
    exact hwf.imp (fun h => by simpa [put_val_id] using h)
  · rename_i hany
    rw [List.pairwise_append]
    refine ⟨hwf, List.pairwise_singleton _ _, ?_⟩
    intro g hg b hb
    have hbr : b = r := List.mem_singleton.mp hb
    rw [hbr]
    intro hc
    exact absurd (by simpa using (⟨g, hg, hc⟩ : ∃ g ∈ s, g.id = r.id))
      (by simpa using hany)

theorem getById_of_mem {s : Store} {r : Generation}
    (hwf : Wellformed s) (hr : r ∈ s) :
    getGenerationById s r.id = some r := by
  unfold Wellformed at hwf
  unfold getGenerationById
  induction s with
  | nil => cases hr
  | cons a as ih =>
    rcases hwf with _ | ⟨hhead, htail⟩
    rcases List.mem_cons.mp hr with rfl | hr2
    · rw [List.find?_cons_of_pos _ (by simp)]
    · rw [List.find?_cons_of_neg _ (by simpa using hhead r hr2)]
      exact ih htail hr2

/-!
Lemmas about `updateGeneration` and the operations built on it.
-/

theorem updateGeneration_ok {s : Store} {id : String} {r : Generation}
    (u : GenUpdate) (tu : Nat) (hr : getGenerationById s id = some r) :
    updateGeneration s id u tu = .ok (putRecord s (applyUpdates r u tu)) := by
  unfold updateGeneration
  rw [hr]

theorem applyUpdates_id_of_none {r : Generation} {u : GenUpdate} (tu : Nat)
    (h : u.id = none) : (applyUpdates r u tu).id = r.id := by
  simp [applyUpdates, h]

theorem getById_update_self {s : Store} {id : String} {r : Generation}
    {u : GenUpdate} {tu : Nat} (hr : getGenerationById s id = some r)
    (hid : u.id = none) :
    ∀ s2, updateGeneration s id u tu = .ok s2 →
      getGenerationById s2 id = some (applyUpdates r u tu) := by
  intro s2 h2
  rw [updateGeneration_ok u tu hr] at h2
  injection h2 with h2
  subst h2
  have hrid : r.id = id := (getById_id_eq hr).1
  have hmid : (applyUpdates r u tu).id = id := by
    rw [applyUpdates_id_of_none tu hid, hrid]
  rw [← hmid]
  exact getById_put_same s _

theorem getById_update_other {s : Store} {id id2 : String} {r : Generation}
    {u : GenUpdate} {tu : Nat} (hr : getGenerationById s id = some r)
    (hid : u.id = none) (hne : id2 ≠ id) :
    ∀ s2, updateGeneration s id u tu = .ok s2 →
      getGenerationById s2 id2 = getGenerationById s id2 := by
  intro s2 h2
  rw [updateGeneration_ok u tu hr] at h2
  injection h2 with h2
  subst h2
  apply getById_put_other
  rw [applyUpdates_id_of_none tu hid, (getById_id_eq hr).1]
  exact hne

theorem wellformed_update {s : Store} {id : String} {u : GenUpdate} {tu : Nat}
    (hwf : Wellformed s) :
    ∀ s2, updateGeneration s id u tu = .ok s2 → Wellformed s2 := by
  intro s2 h2
  unfold updateGeneration at h2
  rcases hget : getGenerationById s id with _ | r
  · rw [hget] at h2; cases h2
  · rw [hget] at h2
    injection h2 with h2
    subst h2
    exact wellformed_put _ hwf


theorem applyUpdates_markSynced (r : Generation) (tl tu : Nat) :
    applyUpdates r { synced := some true, lastSyncAttempt := some tl } tu =
      markedRec r tl tu := rfl

theorem getById_markAll_other {tl tu : Nat} {id2 : String} :
    ∀ (pre : List Generation) (s : Store), (∀ r ∈ pre, r.id ≠ id2) →
      getGenerationById (markAll pre tl tu s) id2 = getGenerationById s id2 := by
  intro pre
  induction pre with
  | nil => intro s _; rfl
  | cons p ps ih =>
    intro s h
    show getGenerationById (markAll ps tl tu (putRecord s (markedRec p tl tu))) id2 = _
    rw [ih _ (fun r hr => h r (List.mem_cons_of_mem _ hr))]
    exact getById_put_other s _ id2
      (fun hc => h p (List.mem_cons_self _ _) hc.symm)

theorem getById_markAll_mem {tl tu : Nat} :
    ∀ (pre : List Generation) (s : Store),
      List.Pairwise (fun a b : Generation => a.id ≠ b.id) pre →
      (∀ r ∈ pre, getGenerationById s r.id = some r) →
      ∀ r ∈ pre, getGenerationById (markAll pre tl tu s) r.id =
        some (markedRec r tl tu) := by
  intro pre
  induction pre with
  | nil => intro s _ _ r hr; cases hr
  | cons p ps ih =>
    intro s hpw hin r hr
    rcases hpw with _ | ⟨hhead, htail⟩
    show getGenerationById (markAll ps tl tu (putRecord s (markedRec p tl tu))) r.id = _
    rcases List.mem_cons.mp hr with rfl | hr2
    · rw [getById_markAll_other ps _ (fun q hq => fun hc => hhead q hq hc.symm)]
      exact getById_put_same s (markedRec r tl tu)
    · apply ih _ htail _ r hr2
      intro q hq
      rw [getById_put_other s (markedRec p tl tu) q.id
        (fun hc => hhead q hq hc.symm)]
      exact hin q (List.mem_cons_of_mem _ hq)

theorem syncLoop_split (push : Generation → Bool) (tl tu : Nat)
    (f : Generation) (post : List Generation) (hf : push f = false) :
    ∀ (pre : List Generation) (s : Store),
      (∀ r ∈ pre, getGenerationById s r.id = some r) →
      List.Pairwise (fun a b : Generation => a.id ≠ b.id) pre →
      (∀ r ∈ pre, push r = true) →
      syncLoop push tl tu (pre ++ f :: post) s =
        (markAll pre tl tu s, pre.map (fun r => r.id) ++ [f.id], false) := by
  intro pre
  induction pre with
  | nil =>
    intro s _ _ _
    simp [syncLoop, hf, markAll]
  | cons p ps ih =>
    intro s hin hpw hpush
    have hr : getGenerationById s p.id = some p := hin p (List.mem_cons_self _ _)
    have hm : markAsSynced s p.id tl tu = .ok (putRecord s (markedRec p tl tu)) := by
      unfold markAsSynced
      rw [updateGeneration_ok _ tu hr, applyUpdates_markSynced]
    rcases hpw with _ | ⟨hhead, htail⟩
    have hnext : ∀ r ∈ ps,
        getGenerationById (putRecord s (markedRec p tl tu)) r.id = some r := by
      intro r hrps
      rw [getById_put_other s (markedRec p tl tu) r.id
        (fun hc => hhead r hrps hc.symm)]
      exact hin r (List.mem_cons_of_mem _ hrps)
    have hrest := ih (putRecord s (markedRec p tl tu)) hnext htail
      (fun r hr2 => hpush r (List.mem_cons_of_mem _ hr2))
    simp only [List.cons_append, syncLoop, hpush p (List.mem_cons_self _ _),
      hm, hrest]
    simp [markAll, hrest]

/-!
Claim theorems.
-/

/-- C1: in a sync pass, the unsynced records returned by
`getUnsyncedGenerations` are pushed strictly one at a time in the order
returned; when the push of some record fails, the earlier records of the
pass (which all succeeded) end with `synced = true`, the failing record and
every record after it are left unchanged with `synced = false`, and no push
is attempted for any record after the failing one: the attempted ids are
exactly the successful prefix followed by the failing id. -/
theorem c1_sync_pass_abort_on_failure (push : Generation → Bool) (tl tu : Nat)
    (s : Store) (pre : List Generation) (f : Generation) (post : List Generation)
    (hwf : Wellformed s)
    (hsplit : getUnsyncedGenerations s = pre ++ f :: post)
    (hpre : ∀ r ∈ pre, push r = true)
    (hf : push f = false) :
    (syncToServer push tl tu s).2.1 = pre.map (fun r => r.id) ++ [f.id] ∧
    (∀ r ∈ pre, getGenerationById (syncToServer push tl tu s).1 r.id =
      some { r with synced := true, lastSyncAttempt := some tl,
                    updatedAt := some tu }) ∧
    (∀ r ∈ f :: post, r.synced = false ∧
      getGenerationById (syncToServer push tl tu s).1 r.id = some r) := by
  have hmem : ∀ r ∈ pre ++ f :: post, r ∈ s ∧ r.synced = false := by
    intro r hr
    have hru : r ∈ getUnsyncedGenerations s := hsplit ▸ hr
    have h2 := List.mem_filter.mp hru
    exact ⟨h2.1, by simpa using h2.2⟩
  have hpw : List.Pairwise (fun a b : Generation => a.id ≠ b.id)
      (pre ++ f :: post) := by
    rw [← hsplit]
    exact List.Pairwise.sublist (List.filter_sublist s) hwf
  rcases List.pairwise_append.mp hpw with ⟨hpwPre, _, hcross⟩
  have hin : ∀ r ∈ pre, getGenerationById s r.id = some r := fun r hr =>
    getById_of_mem hwf (hmem r (List.mem_append_left _ hr)).1
  have hmain : syncToServer push tl tu s =
      (markAll pre tl tu s, pre.map (fun r => r.id) ++ [f.id], false) := by
    unfold syncToServer
    rw [hsplit]
    exact syncLoop_split push tl tu f post hf pre s hin hpwPre hpre
  refine ⟨by rw [hmain], ?_, ?_⟩
  · intro r hr
    rw [hmain]
    exact getById_markAll_mem pre s hpwPre hin r hr
  · intro r hr
    have hrs := hmem r (List.mem_append_right _ hr)
    refine ⟨hrs.2, ?_⟩
    rw [hmain]
    have hne : ∀ q ∈ pre, q.id ≠ r.id := fun q hq => hcross q hq r hr
    rw [getById_markAll_other pre s hne]
    exact getById_of_mem hwf hrs.1

/-- Witness for C1: a store of three unsynced records where the push of the
second fails.  The first is pushed and marked synced, the second is pushed
and left unsynced, the third is neither pushed nor changed. -/
theorem c1_sync_pass_abort_on_failure_witness :
    Wellformed wStore ∧
    getUnsyncedGenerations wStore = [wStoreA] ++ wStoreB :: [wStoreC] ∧
    (∀ r ∈ [wStoreA], pushFailB r = true) ∧
    pushFailB wStoreB = false ∧
    ((syncToServer pushFailB 9 9 wStore).2.1 =
        [wStoreA].map (fun r => r.id) ++ [wStoreB.id] ∧
      (∀ r ∈ [wStoreA],
        getGenerationById (syncToServer pushFailB 9 9 wStore).1 r.id =
          some { r with synced := true, lastSyncAttempt := some 9,
                        updatedAt := some 9 }) ∧
      (∀ r ∈ wStoreB :: [wStoreC], r.synced = false ∧
        getGenerationById (syncToServer pushFailB 9 9 wStore).1 r.id = some r)) :=
  ⟨by decide, by decide, by decide, by decide,
    c1_sync_pass_abort_on_failure pushFailB 9 9 wStore [wStoreA] wStoreB
      [wStoreC] (by decide) (by decide) (by decide) (by decide)⟩

/-- C2: with a bound user context, `saveGeneration` persists the record with
the freshly generated id and creation timestamp, `synced = false`,
`syncAttempts = 0`, `favorite = false`, and an immediate `getGenerationById`
on the returned id finds it with all supplied fields (type, prompt, result,
model, metadata) unchanged. -/
theorem c2_save_then_getById (user : Option String) (uid : String)
    (d : SaveInput) (s : Store) (id : String) (now : Nat)
    (h : user = some uid) :
    ∃ s2, hookSaveGeneration user d s id now = .ok (id, s2) ∧
      getGenerationById s2 id =
        some { id := id, userId := uid, gtype := d.gtype, prompt := d.prompt,
               result := d.result, model := d.model, metadata := d.metadata,
               createdAt := now, updatedAt := some now, synced := false,
               syncAttempts := some 0, favorite := some false,
               tags := some (d.tags.getD []),
               lastSyncAttempt := d.lastSyncAttempt } := by
  subst h
  exact ⟨(saveGeneration s { d with userId := uid } id now).2, rfl,
    getById_put_same s _⟩

/-- Witness for C2: saving a concrete input under a bound user and reading
it back by the returned id. -/
theorem c2_save_then_getById_witness :
    (some "u1" : Option String) = some "u1" ∧
    ∃ s2, hookSaveGeneration (some "u1") c2input [] "gen_1" 42 = .ok ("gen_1", s2) ∧
      getGenerationById s2 "gen_1" =
        some { id := "gen_1", userId := "u1", gtype := c2input.gtype,
               prompt := c2input.prompt, result := c2input.result,
               model := c2input.model, metadata := c2input.metadata,
               createdAt := 42, updatedAt := some 42, synced := false,
               syncAttempts := some 0, favorite := some false,
               tags := some (c2input.tags.getD []),
               lastSyncAttempt := c2input.lastSyncAttempt } :=
  ⟨rfl, c2_save_then_getById (some "u1") "u1" c2input [] "gen_1" 42 rfl⟩

theorem synced_after_update {s : Store} {id : String} {r : Generation}
    {u : GenUpdate} {tu : Nat} (hr : getGenerationById s id = some r)
    (hid : u.id = none) :
    ∀ s2, updateGeneration s id u tu = .ok s2 →
      syncedAt s2 id = some (u.synced.getD r.synced) := by
  intro s2 h2
  unfold syncedAt
  rw [getById_update_self hr hid s2 h2]
  rfl

/-- C3 counterexample: `importData` upserts by id, so importing a record
that carries `synced = false` over an already-synced record with the same id
resets that record's `synced` flag to false — refuting the claim that no
client-side store operation other than delete/recreate can do so (the claim
also fails for `updateGeneration` with a partial object containing
`synced: false`). -/
theorem c3_counterexample :
    syncedRec.synced = true ∧
    (importData [syncedRec] [mkRec "g1" 5 false]).1 = [mkRec "g1" 5 false] ∧
    syncedAt (importData [syncedRec] [mkRec "g1" 5 false]).1 "g1" =
      some false := by
  decide

/-- C3 amended: once `synced` is true, `markAsSynced`, `markSyncFailed`,
`toggleFavorite`, `addTags`, and `updateGeneration` with a partial object
containing neither `synced` nor `id` never reset the record's `synced` flag
to false; `importData` of a record with the same id and `synced = false`, or
`updateGeneration` with `synced: false`, can reset it. -/
theorem c3_amended_synced_preserved (s : Store) (id : String) (r : Generation)
    (u : GenUpdate) (tl tu : Nat) (ts : List String)
    (hr : getGenerationById s id = some r) (hsy : r.synced = true) :
    (∀ s2, markAsSynced s id tl tu = .ok s2 → syncedAt s2 id = some true) ∧
    (∀ s2, markSyncFailed s id tl tu = .ok s2 → syncedAt s2 id = some true) ∧
    (∀ b s2, toggleFavorite s id tu = .ok (b, s2) → syncedAt s2 id = some true) ∧
    (∀ s2, addTags s id ts tu = .ok s2 → syncedAt s2 id = some true) ∧
    (u.synced = none → u.id = none →
      ∀ s2, updateGeneration s id u tu = .ok s2 → syncedAt s2 id = some true) := by
  refine ⟨?_, ?_, ?_, ?_, ?_⟩
  · intro s2 h2
    unfold markAsSynced at h2
    exact synced_after_update hr rfl s2 h2
  · intro s2 h2
    unfold markSyncFailed at h2
    rw [hr] at h2
    have := synced_after_update hr rfl s2 h2
    rwa [hsy] at this
  · intro b s2 h2
    unfold toggleFavorite at h2
    rw [hr] at h2
    dsimp only at h2
    rcases hup : updateGeneration s id
        { favorite := some (!(r.favorite.getD false)) } tu with e | s3
    · rw [hup] at h2; cases h2
    · rw [hup] at h2
      injection h2 with h2
      injection h2 with _ h2
      subst h2
      have := synced_after_update hr rfl s3 hup
      rwa [hsy] at this
  · intro s2 h2
    unfold addTags at h2
    rw [hr] at h2
    have := synced_after_update hr rfl s2 h2
    rwa [hsy] at this
  · intro hsynone hidnone s2 h2
    have := synced_after_update hr hidnone s2 h2
    rwa [hsynone, hsy] at this

/-- Witness for C3 amended: on a store holding one synced record, each of
the preserving operations leaves `synced = true`. -/
theorem c3_amended_synced_preserved_witness :
    getGenerationById [syncedRec] "g1" = some syncedRec ∧
    syncedRec.synced = true ∧
    ((∀ s2, markAsSynced [syncedRec] "g1" 3 3 = .ok s2 →
        syncedAt s2 "g1" = some true) ∧
      (∀ s2, markSyncFailed [syncedRec] "g1" 3 3 = .ok s2 →
        syncedAt s2 "g1" = some true) ∧
      (∀ b s2, toggleFavorite [syncedRec] "g1" 3 = .ok (b, s2) →
        syncedAt s2 "g1" = some true) ∧
      (∀ s2, addTags [syncedRec] "g1" ["x"] 3 = .ok s2 →
        syncedAt s2 "g1" = some true) ∧
      (({ prompt := some "p2" } : GenUpdate).synced = none →
        ({ prompt := some "p2" } : GenUpdate).id = none →
        ∀ s2, updateGeneration [syncedRec] "g1" { prompt := some "p2" } 3 = .ok s2 →
          syncedAt s2 "g1" = some true)) :=
  ⟨by decide, by decide,
    c3_amended_synced_preserved [syncedRec] "g1" syncedRec { prompt := some "p2" }
      3 3 ["x"] (by decide) (by decide)⟩

theorem attempts_after_update {s : Store} {id : String} {r : Generation}
    {u : GenUpdate} {tu : Nat} (hr : getGenerationById s id = some r)
    (hid : u.id = none) :
    ∀ s2, updateGeneration s id u tu = .ok s2 →
      syncAttemptsAt s2 id = some (optUpd u.syncAttempts r.syncAttempts) := by
  intro s2 h2
  unfold syncAttemptsAt
  rw [getById_update_self hr hid s2 h2]
  rfl

theorem attempts_preserved_update {s : Store} {id : String} {r : Generation}
    {u : GenUpdate} {tu : Nat} (hr : getGenerationById s id = some r)
    (hid : u.id = none) (hatt : u.syncAttempts = none) :
    ∀ s2, updateGeneration s id u tu = .ok s2 →
      ∀ id2, syncAttemptsAt s2 id2 = syncAttemptsAt s id2 := by
  intro s2 h2 id2
  by_cases he : id2 = id
  · subst he
    rw [attempts_after_update hr hid s2 h2, hatt]
    unfold syncAttemptsAt
    rw [hr]
    rfl
  · unfold syncAttemptsAt
    rw [getById_update_other hr hid he s2 h2]

theorem syncLoop_preserves_attempts (push : Generation → Bool) (tl tu : Nat) :
    ∀ (us : List Generation) (s : Store) (id2 : String),
      syncAttemptsAt (syncLoop push tl tu us s).1 id2 = syncAttemptsAt s id2 := by
  intro us
  induction us with
  | nil => intro s id2; rfl
  | cons r rs ih =>
    intro s id2
    cases hp : push r
    · simp [syncLoop, hp]
    · rcases hm : markAsSynced s r.id tl tu with e | s3
      · simp [syncLoop, hp, hm]
      · have hpres : ∀ i2, syncAttemptsAt s3 i2 = syncAttemptsAt s i2 := by
          rcases hg : getGenerationById s r.id with _ | ex
          · unfold markAsSynced updateGeneration at hm
            rw [hg] at hm
            cases hm
          · have h2 : updateGeneration s r.id
                { synced := some true, lastSyncAttempt := some tl } tu = .ok s3 := by
              unfold markAsSynced at hm
              exact hm
            exact attempts_preserved_update hg rfl rfl s3 h2
        simp [syncLoop, hp, hm, ih s3, hpres]

/-- C4 counterexample: a sync pass whose only push fails attempts the push
(the attempted-id list is `["g4"]`) but leaves the record's `syncAttempts`
at 0 — the coordinator `syncToServer` never calls `markSyncFailed`, so a
failed remote push does not increment the counter as the claim requires. -/
theorem c4_counterexample :
    c4rec.syncAttempts = some 0 ∧
    (syncToServer (fun _ => false) 7 7 [c4rec]).2.1 = ["g4"] ∧
    syncAttemptsAt (syncToServer (fun _ => false) 7 7 [c4rec]).1 "g4" =
      some (some 0) := by
  decide

/-- C4 amended: `markSyncFailed` increments `syncAttempts` by exactly one
(so the counter is non-decreasing under it), and `toggleFavorite`, `addTags`
and a whole sync pass leave every record's `syncAttempts` unchanged; a
failed remote push inside `syncToServer` therefore does not increment the
counter, because the coordinator performs no failure bookkeeping (it never
calls `markSyncFailed`), and a generic `updateGeneration`/`importData` can
rewrite the counter arbitrarily. -/
theorem c4_amended_sync_attempts (s : Store) (id : String) (r : Generation)
    (tl tu : Nat) (hr : getGenerationById s id = some r) :
    (∀ s2, markSyncFailed s id tl tu = .ok s2 →
      syncAttemptsAt s2 id = some (some (r.syncAttempts.getD 0 + 1))) ∧
    (∀ push tl2 tu2 id2,
      syncAttemptsAt (syncToServer push tl2 tu2 s).1 id2 =
        syncAttemptsAt s id2) ∧
    (∀ b s2, toggleFavorite s id tu = .ok (b, s2) →
      syncAttemptsAt s2 id = some r.syncAttempts) ∧
    (∀ ts s2, addTags s id ts tu = .ok s2 →
      syncAttemptsAt s2 id = some r.syncAttempts) := by
  refine ⟨?_, ?_, ?_, ?_⟩
  · intro s2 h2
    unfold markSyncFailed at h2
    rw [hr] at h2
    rw [attempts_after_update hr rfl s2 h2]
    rfl
  · intro push tl2 tu2 id2
    exact syncLoop_preserves_attempts push tl2 tu2 _ s id2
  · intro b s2 h2
    unfold toggleFavorite at h2
    rw [hr] at h2
    dsimp only at h2
    rcases hup : updateGeneration s id
        { favorite := some (!(r.favorite.getD false)) } tu with e | s3
    · rw [hup] at h2; cases h2
    · rw [hup] at h2
      injection h2 with h2
      injection h2 with _ h2
      subst h2
      rw [attempts_after_update hr rfl s3 hup]
      rfl
  · intro ts s2 h2
    unfold addTags at h2
    rw [hr] at h2
    rw [attempts_after_update hr rfl s2 h2]
    rfl

/-- Witness for C4 amended, on a store holding one unsynced record with
`syncAttempts = 0`. -/
theorem c4_amended_sync_attempts_witness :
    getGenerationById [c4rec] "g4" = some c4rec ∧
    ((∀ s2, markSyncFailed [c4rec] "g4" 5 5 = .ok s2 →
        syncAttemptsAt s2 "g4" = some (some (c4rec.syncAttempts.getD 0 + 1))) ∧
      (∀ push tl2 tu2 id2,
        syncAttemptsAt (syncToServer push tl2 tu2 [c4rec]).1 id2 =
          syncAttemptsAt [c4rec] id2) ∧
      (∀ b s2, toggleFavorite [c4rec] "g4" 5 = .ok (b, s2) →
        syncAttemptsAt s2 "g4" = some c4rec.syncAttempts) ∧
      (∀ ts s2, addTags [c4rec] "g4" ts 5 = .ok s2 →
        syncAttemptsAt s2 "g4" = some c4rec.syncAttempts)) :=
  ⟨by decide, c4_amended_sync_attempts [c4rec] "g4" c4rec 5 5 (by decide)⟩

/-- C5 counterexample: `markAsSynced` goes through `updateGeneration`, which
stamps `updatedAt` on every call.  Marking an already-synced record a second
time (first call at time 1, second at time 2) therefore changes `updatedAt`
from 1 to 2 — a field other than `lastSyncAttempt` — refuting the claim that
the second call changes only `lastSyncAttempt`. -/
theorem c5_counterexample :
    (markAsSynced [c5r0] "g5" 1 1).toOption = some [c5r1] ∧
    (markAsSynced [c5r1] "g5" 2 2).toOption = some [c5r2] ∧
    c5r1.synced = true ∧
    c5r1.updatedAt = some 1 ∧
    c5r2.updatedAt = some 2 := by
  decide

/-- C5 amended: `markAsSynced` on an already-synced record changes only that
record's `lastSyncAttempt` and `updatedAt` fields — `synced` stays true and
every other field is unchanged — and leaves every other record untouched. -/
theorem c5_amended_markSynced_idempotent (s : Store) (id : String)
    (r : Generation) (tl tu : Nat)
    (hr : getGenerationById s id = some r) (hsy : r.synced = true) :
    ∀ s2, markAsSynced s id tl tu = .ok s2 →
      getGenerationById s2 id =
        some { r with lastSyncAttempt := some tl, updatedAt := some tu } ∧
      ∀ id2, id2 ≠ id → getGenerationById s2 id2 = getGenerationById s id2 := by
  intro s2 h2
  unfold markAsSynced at h2
  constructor
  · rw [getById_update_self hr rfl s2 h2, applyUpdates_markSynced]
    unfold markedRec
    rw [← hsy]
  · intro id2 hne
    exact getById_update_other hr rfl hne s2 h2

/-- Witness for C5 amended: the second `markAsSynced` on the already-synced
record `c5r1` yields exactly `c5r1` with `lastSyncAttempt` and `updatedAt`
restamped. -/
theorem c5_amended_markSynced_idempotent_witness :
    getGenerationById [c5r1] "g5" = some c5r1 ∧
    c5r1.synced = true ∧
    (∀ s2, markAsSynced [c5r1] "g5" 2 2 = .ok s2 →
      getGenerationById s2 "g5" =
        some { c5r1 with lastSyncAttempt := some 2, updatedAt := some 2 } ∧
      ∀ id2, id2 ≠ "g5" → getGenerationById s2 id2 = getGenerationById [c5r1] id2) :=
  ⟨by decide, by decide,
    c5_amended_markSynced_idempotent [c5r1] "g5" c5r1 2 2 (by decide) (by decide)⟩

theorem applyFilters_eq (s : Store) (userId : String) (opts : QueryOptions) :
    applyFilters s userId opts = s.filter (specKeep userId opts) := by
  rcases opts with ⟨qt, lim, off, sb, so, syn, fav⟩
  rcases qt with _ | t <;> rcases syn with _ | b <;>
    by_cases hf : fav = some true <;>
      simp only [applyFilters, hf, if_true, if_false, ite_true, ite_false,
        List.filter_filter] <;>
      refine List.filter_congr (fun g _ => ?_) <;>
      simp [specKeep, hf, Bool.and_assoc, Bool.and_comm, Bool.and_left_comm]

/-- C6: `getGenerations` returns at most `limit` (default 100) records, all
belonging to the user, and equals the specification pipeline that first
applies all filters (type, syncedOnly, favoritesOnly), then sorts by the
requested key (default `createdAt` descending), then applies offset/limit
paging — in exactly that order. -/
theorem c6_query_filter_sort_page (s : Store) (userId : String)
    (opts : QueryOptions) :
    getGenerations s userId opts = querySpec s userId opts ∧
    (getGenerations s userId opts).length ≤ opts.limit.getD 100 ∧
    (∀ r ∈ getGenerations s userId opts, r.userId = userId) := by
  have heq : getGenerations s userId opts = querySpec s userId opts := by
    unfold getGenerations querySpec
    rw [applyFilters_eq]
  refine ⟨heq, ?_, ?_⟩
  · show (((List.insertionSort _ (applyFilters s userId opts)).drop
      (opts.offset.getD 0)).take (opts.limit.getD 100)).length ≤
        opts.limit.getD 100
    rw [List.length_take]
    exact min_le_left _ _
  · intro r hr
    rw [heq] at hr
    have h2 := List.mem_of_mem_drop (List.mem_of_mem_take hr)
    rw [List.mem_insertionSort] at h2
    have h3 := List.mem_filter.mp h2
    have h4 := h3.2
    unfold specKeep at h4
    simp only [Bool.and_eq_true, decide_eq_true_eq] at h4
    exact h4.1.1.1

theorem lookupBool_free (f : String) :
    lookupBool freeLimits f = true ↔
      (f = "imageGeneration" ∨ f = "codeGeneration") := by
  rcases eq_or_ne f "imageGeneration" with h | h1
  · subst h; decide
  rcases eq_or_ne f "videoGeneration" with h | h2
  · subst h; decide
  rcases eq_or_ne f "audioGeneration" with h | h3
  · subst h; decide
  rcases eq_or_ne f "codeGeneration" with h | h4
  · subst h; decide
  rcases eq_or_ne f "highResolution" with h | h5
  · subst h; decide
  rcases eq_or_ne f "apiAccess" with h | h6
  · subst h; decide
  rcases eq_or_ne f "prioritySupport" with h | h7
  · subst h; decide
  rcases eq_or_ne f "customModels" with h | h8
  · subst h; decide
  rcases eq_or_ne f "batchProcessing" with h | h9
  · subst h; decide
  simp [lookupBool, freeLimits, h1, h2, h3, h4, h5, h6, h7, h8, h9]

theorem lookupBool_basic (f : String) :
    lookupBool basicLimits f = true ↔
      (f = "imageGeneration" ∨ f = "videoGeneration" ∨ f = "audioGeneration" ∨
       f = "codeGeneration" ∨ f = "highResolution" ∨ f = "batchProcessing") := by
  rcases eq_or_ne f "imageGeneration" with h | h1
  · subst h; decide
  rcases eq_or_ne f "videoGeneration" with h | h2
  · subst h; decide
  rcases eq_or_ne f "audioGeneration" with h | h3
  · subst h; decide
  rcases eq_or_ne f "codeGeneration" with h | h4
  · subst h; decide
  rcases eq_or_ne f "highResolution" with h | h5
  · subst h; decide
  rcases eq_or_ne f "apiAccess" with h | h6
  · subst h; decide
  rcases eq_or_ne f "prioritySupport" with h | h7
  · subst h; decide
  rcases eq_or_ne f "customModels" with h | h8
  · subst h; decide
  rcases eq_or_ne f "batchProcessing" with h | h9
  · subst h; decide
  simp [lookupBool, basicLimits, h1, h2, h3, h4, h5, h6, h7, h8, h9]

/-- C7: `hasFeatureAccess` is a fixed per-plan allow-list — no subscription
denies everything; under plan `'free'` access is granted exactly for
`imageGeneration` and `codeGeneration`; under `'basic'` exactly for those
plus `videoGeneration`, `audioGeneration`, `highResolution` and
`batchProcessing`; under `'pro'` for every feature; and under every other
plan string for nothing (fail-closed for unknown plans, and for unknown
features under `'free'`/`'basic'`). -/
theorem c7_feature_allowlist (sub : Subscription) (f : String) :
    hasFeatureAccess none f = false ∧
    (hasFeatureAccess (some sub) f = true ↔
      ((sub.plan = "free" ∧ (f = "imageGeneration" ∨ f = "codeGeneration")) ∨
       (sub.plan = "basic" ∧ (f = "imageGeneration" ∨ f = "videoGeneration" ∨
         f = "audioGeneration" ∨ f = "codeGeneration" ∨ f = "highResolution" ∨
         f = "batchProcessing")) ∨
       sub.plan = "pro")) := by
  refine ⟨rfl, ?_⟩
  unfold hasFeatureAccess
  rcases eq_or_ne sub.plan "free" with hp1 | hp1
  · simp [hp1, lookupBool_free]
  rcases eq_or_ne sub.plan "basic" with hp2 | hp2
  · simp [hp2, lookupBool_basic]
  rcases eq_or_ne sub.plan "pro" with hp3 | hp3
  · simp [hp3]
  simp [hp1, hp2, hp3]

/-- C8 counterexample: with the usage snapshot missing, `hasReachedLimit`
returns false — "limit not reached", i.e. the user is allowed — even for a
feature whose limit is 0, where the same check with usage data present
denies.  The quota check fails open on missing upstream data, refuting the
fail-closed claim. -/
theorem c8_counterexample :
    hasReachedLimit none (some limitsImg0) "imageGeneration" = false ∧
    hasReachedLimit (some []) (some limitsImg0) "imageGeneration" = true := by
  decide

/-- C8 amended: on missing usage or limits data `hasReachedLimit` returns
false (limit not reached — fail-open for this check) while
`getRemainingQuota` returns 0; with data present, an `'unlimited'` limit
never reaches its limit, a numeric limit is reached iff `usage >= limit`
with usage defaulting to 0, and an absent (non-numeric) limit entry is never
reached. -/
theorem c8_amended_quota_checks (f : String) (n : Nat) :
    (∀ ls, hasReachedLimit none ls f = false) ∧
    (∀ us, hasReachedLimit us none f = false) ∧
    (∀ ls, getRemainingQuota none ls f = .num 0) ∧
    (∀ us, getRemainingQuota us none f = .num 0) ∧
    (∀ us ls, lookupLimit ls f = some .unlimited →
      hasReachedLimit (some us) (some ls) f = false ∧
      getRemainingQuota (some us) (some ls) f = .unlimited) ∧
    (∀ us ls, lookupLimit ls f = some (.num n) →
      hasReachedLimit (some us) (some ls) f =
        decide ((lookupUsage us f).getD 0 ≥ n) ∧
      getRemainingQuota (some us) (some ls) f =
        .num (n - (lookupUsage us f).getD 0)) ∧
    (∀ us ls, lookupLimit ls f = none →
      hasReachedLimit (some us) (some ls) f = false) := by
  refine ⟨fun ls => by cases ls <;> rfl, fun us => by cases us <;> rfl,
    fun ls => by cases ls <;> rfl, fun us => by cases us <;> rfl, ?_, ?_, ?_⟩
  · intro us ls h
    constructor
    · unfold hasReachedLimit
      dsimp only
      rw [h]
    · unfold getRemainingQuota
      dsimp only
      rw [h]
  · intro us ls h
    constructor
    · unfold hasReachedLimit
      dsimp only
      rw [h]
    · unfold getRemainingQuota
      dsimp only
      rw [h]
  · intro us ls h
    unfold hasReachedLimit
    dsimp only
    rw [h]

/-- Witness for C8 amended, at feature `"imageGeneration"` with limit 0:
missing usage data reports the limit as not reached, present usage data
reports it as reached. -/
theorem c8_amended_quota_checks_witness :
    hasReachedLimit none (some limitsImg0) "imageGeneration" = false ∧
    lookupLimit limitsImg0 "imageGeneration" = some (.num 0) ∧
    (hasReachedLimit (some []) (some limitsImg0) "imageGeneration" =
        decide ((lookupUsage [] "imageGeneration").getD 0 ≥ 0) ∧
      getRemainingQuota (some []) (some limitsImg0) "imageGeneration" =
        .num (0 - (lookupUsage [] "imageGeneration").getD 0)) :=
  ⟨(c8_amended_quota_checks "imageGeneration" 0).1 (some limitsImg0),
    by decide,
    (c8_amended_quota_checks "imageGeneration" 0).2.2.2.2.2.1 [] limitsImg0
      (by decide)⟩

theorem getGenerations_length_le (s : Store) (u : String) (opts : QueryOptions) :
    (getGenerations s u opts).length ≤ opts.limit.getD 100 := by
  show (((List.insertionSort _ (applyFilters s u opts)).drop
    (opts.offset.getD 0)).take (opts.limit.getD 100)).length ≤ _
  rw [List.length_take]
  exact min_le_left _ _

theorem export_eq (s : Store) (u : String)
    (hle : (s.filter (fun g => decide (g.userId = u))).length ≤ 10000) :
    exportData s u =
      List.insertionSort
        (fun a b => cmpVal .desc .createdAt a b ≤ 0)
        (s.filter (fun g => decide (g.userId = u))) := by
  show ((List.insertionSort _ (applyFilters s u { limit := some 10000 })).drop
    0).take 10000 = _
  rw [List.drop_zero]
  have hfil : applyFilters s u { limit := some 10000 } =
      s.filter (fun g => decide (g.userId = u)) := rfl
  rw [hfil]
  exact List.take_of_length_le (by rw [List.length_insertionSort]; exact hle)

theorem unique_by_id {s : Store} {g r : Generation} (hwf : Wellformed s)
    (hg : g ∈ s) (hr : r ∈ s) (hgid : g.id = r.id) : g = r := by
  by_contra hne
  exact List.Pairwise.forall (fun a b h => Ne.symm h) hwf hg hr hne hgid

theorem put_self_noop {s : Store} {r : Generation} (hwf : Wellformed s)
    (hr : r ∈ s) : putRecord s r = s := by
  unfold putRecord
  have hany : s.any (fun g => decide (g.id = r.id)) = true :=
    List.any_eq_true.mpr ⟨r, hr, by simp⟩
  rw [if_pos hany]
  have hpt : ∀ g ∈ s, (if g.id = r.id then r else g) = g := by
    intro g hg
    by_cases hgid : g.id = r.id
    · rw [if_pos hgid, unique_by_id hwf hg hr hgid]
    · rw [if_neg hgid]
  rw [List.map_congr_left hpt]
  simp

theorem foldl_put_fresh :
    ∀ (xs : List Generation) (s : Store),
      List.Pairwise (fun a b : Generation => a.id ≠ b.id) xs →
      (∀ r ∈ xs, ∀ g ∈ s, g.id ≠ r.id) →
      xs.foldl putRecord s = s ++ xs := by
  intro xs
  induction xs with
  | nil => intro s _ _; simp
  | cons x xs' ih =>
    intro s hpw hfresh
    rcases hpw with _ | ⟨hhead, htail⟩
    have hany : ¬ (s.any (fun g => decide (g.id = x.id)) = true) := by
      intro hc
      rcases List.any_eq_true.mp hc with ⟨g, hg, hgid⟩
      exact hfresh x (List.mem_cons_self _ _) g hg (of_decide_eq_true hgid)
    have hput : putRecord s x = s ++ [x] := by
      unfold putRecord
      rw [if_neg hany]
    show xs'.foldl putRecord (putRecord s x) = s ++ x :: xs'
    rw [hput, ih (s ++ [x]) htail ?_]
    · simp
    · intro r hr g hg
      rcases List.mem_append.mp hg with hg2 | hg2
      · exact hfresh r (List.mem_cons_of_mem _ hr) g hg2
      · rcases List.mem_singleton.mp hg2 with rfl
        exact hhead r hr

theorem foldl_put_noop :
    ∀ (xs : List Generation) (s : Store), Wellformed s →
      (∀ r ∈ xs, r ∈ s) → xs.foldl putRecord s = s := by
  intro xs
  induction xs with
  | nil => intro s _ _; rfl
  | cons x xs' ih =>
    intro s hwf hin
    show xs'.foldl putRecord (putRecord s x) = s
    rw [put_self_noop hwf (hin x (List.mem_cons_self _ _))]
    exact ih s hwf (fun r hr => hin r (List.mem_cons_of_mem _ hr))

theorem putRecord_length (s : Store) (r : Generation) :
    (putRecord s r).length ≤ s.length + 1 := by
  unfold putRecord
  split
  · rw [List.length_map]
    exact Nat.le_succ _
  · rw [List.length_append]
    exact le_refl _

theorem importData_length :
    ∀ (xs : List Generation) (s : Store),
      ((importData s xs).1).length ≤ s.length + xs.length := by
  intro xs
  induction xs with
  | nil => intro s; exact Nat.le_add_right _ _
  | cons x xs' ih =>
    intro s
    show (xs'.foldl putRecord (putRecord s x)).length ≤ s.length + (xs'.length + 1)
    calc (xs'.foldl putRecord (putRecord s x)).length
        ≤ (putRecord s x).length + xs'.length := ih (putRecord s x)
      _ ≤ (s.length + 1) + xs'.length :=
          Nat.add_le_add_right (putRecord_length s x) _
      _ = s.length + (xs'.length + 1) := by omega

/-- C9 counterexample: `exportData` caps its read at `limit: 10000`, so for
a user with 10001 records the export drops at least one record, and
restoring the export into an empty store cannot reproduce the user's record
set — the restored store holds at most 10000 of the 10001 pairwise-distinct
records. -/
theorem c9_counterexample :
    ¬ (∀ r : Generation,
        r ∈ (importData [] (exportData bigStore "u")).1 ↔
          (r ∈ bigStore ∧ r.userId = "u")) := by
  intro h
  have husr : ∀ r ∈ bigStore, r.userId = "u" := by
    intro r hr
    rcases List.mem_map.mp hr with ⟨i, _, rfl⟩
    rfl
  have hsub : bigStore ⊆ (importData [] (exportData bigStore "u")).1 :=
    fun {r} hr => (h r).mpr ⟨hr, husr r hr⟩
  have hinj : Function.Injective bigRec := by
    intro i j hij
    have h2 := congrArg Generation.createdAt hij
    simpa [bigRec] using h2
  have hnd : bigStore.Nodup := (List.nodup_range 10001).map hinj
  have hlen1 : bigStore.length ≤
      ((importData [] (exportData bigStore "u")).1).length :=
    (List.subperm_of_subset hnd hsub).length_le
  have hlen2 : ((importData [] (exportData bigStore "u")).1).length ≤
      (exportData bigStore "u").length := by
    have h0 := importData_length (exportData bigStore "u") []
    rwa [List.length_nil, Nat.zero_add] at h0
  have hlen3 : (exportData bigStore "u").length ≤ 10000 :=
    getGenerations_length_le bigStore "u" { limit := some 10000 }
  have hlen4 : bigStore.length = 10001 := by
    unfold bigStore
    rw [List.length_map, List.length_range]
  have hfinal : (10001 : Nat) ≤ 10000 :=
    hlen4 ▸ le_trans hlen1 (le_trans hlen2 hlen3)
  exact absurd hfinal (by decide)

/-- C9 amended: for a user with at most 10000 records, feeding `exportData`
into `importData` on an empty store reproduces exactly the user's record set
(the restored store is the export list itself, a permutation of the user's
records, with ids and all field values intact), and repeating the very same
call of `importData` on the resulting store changes nothing. -/
theorem c9_round_trip (s : Store) (u : String)
    (hwf : Wellformed s)
    (hle : (s.filter (fun g => decide (g.userId = u))).length ≤ 10000) :
    (importData [] (exportData s u)).1 = exportData s u ∧
    List.Perm (exportData s u) (s.filter (fun g => decide (g.userId = u))) ∧
    (importData (exportData s u) (exportData s u)).1 = exportData s u := by
  have hperm : List.Perm (exportData s u)
      (s.filter (fun g => decide (g.userId = u))) := by
    rw [export_eq s u hle]
    exact List.perm_insertionSort _ _
  have hsymm : Symmetric (fun a b : Generation => a.id ≠ b.id) :=
    fun a b h => Ne.symm h
  have hpwF : List.Pairwise (fun a b : Generation => a.id ≠ b.id)
      (s.filter (fun g => decide (g.userId = u))) :=
    List.Pairwise.sublist (List.filter_sublist s) hwf
  have hpwE : Wellformed (exportData s u) :=
    (hperm.pairwise_iff (fun {a b} h => hsymm h)).mpr hpwF
  refine ⟨?_, hperm, ?_⟩
  · have h1 := foldl_put_fresh (exportData s u) [] hpwE
      (by intro r _ g hg; cases hg)
    simpa using h1
  · exact foldl_put_noop (exportData s u) (exportData s u) hpwE (fun r hr => hr)

/-- Witness for C9 amended: round-tripping the three-record store of user
`"u1"`. -/
theorem c9_round_trip_witness :
    Wellformed wStore ∧
    (wStore.filter (fun g => decide (g.userId = "u1"))).length ≤ 10000 ∧
    ((importData [] (exportData wStore "u1")).1 = exportData wStore "u1" ∧
      List.Perm (exportData wStore "u1")
        (wStore.filter (fun g => decide (g.userId = "u1"))) ∧
      (importData (exportData wStore "u1") (exportData wStore "u1")).1 =
        exportData wStore "u1") :=
  ⟨by decide, by decide, c9_round_trip wStore "u1" (by decide) (by decide)⟩

/-- C10 counterexample: in the `useAutoSync` scheduler model, a timer firing
while the hook is active always starts a new `syncToServer` run — `mutate`
does not deduplicate against a run already in flight — so after two ticks
with no completion in between, two passes are in flight simultaneously,
refuting "at most one sync pass is ever in flight / the trigger is
dropped". -/
theorem c10_counterexample :
    (runAutoSync autoSyncStart [SyncEvent.tick]).inFlight = 1 ∧
    (runAutoSync autoSyncStart [SyncEvent.tick, SyncEvent.tick]).inFlight = 2 ∧
    ¬ (runAutoSync autoSyncStart [SyncEvent.tick, SyncEvent.tick]).inFlight ≤ 1 := by
  decide

/-- C10 amended: while the hook is active, every timer fire starts a new
sync pass regardless of how many passes are already in flight — concurrent
passes are possible; only after deactivation does no event start a new pass
(the in-flight count never grows and the scheduler never reactivates). -/
theorem c10_amended_no_single_flight (st : SyncSchedState)
    (h : st.isActive = true) :
    (autoSyncStep st .tick).inFlight = st.inFlight + 1 ∧
    (∀ st2 evs, st2.isActive = false →
      (runAutoSync st2 evs).inFlight ≤ st2.inFlight ∧
      (runAutoSync st2 evs).isActive = false) := by
  constructor
  · simp [autoSyncStep, h]
  · intro st2 evs
    induction evs generalizing st2 with
    | nil => intro h2; exact ⟨le_refl _, h2⟩
    | cons e es ih =>
      intro h2
      have hstep : (autoSyncStep st2 e).isActive = false ∧
          (autoSyncStep st2 e).inFlight ≤ st2.inFlight := by
        cases e
        · simp [autoSyncStep, h2]
        · simp only [autoSyncStep]
          exact ⟨h2, Nat.sub_le _ _⟩
        · exact ⟨rfl, le_refl _⟩
      have hrec := ih (autoSyncStep st2 e) hstep.1
      exact ⟨le_trans hrec.1 hstep.2, hrec.2⟩

/-- Witness for C10 amended: with one pass already in flight, a tick starts
a second one. -/
theorem c10_amended_no_single_flight_witness :
    ({ isActive := true, inFlight := 1 } : SyncSchedState).isActive = true ∧
    ((autoSyncStep { isActive := true, inFlight := 1 } .tick).inFlight = 1 + 1 ∧
      (∀ st2 evs, st2.isActive = false →
        (runAutoSync st2 evs).inFlight ≤ st2.inFlight ∧
        (runAutoSync st2 evs).isActive = false)) :=
  ⟨rfl, c10_amended_no_single_flight { isActive := true, inFlight := 1 } rfl⟩
